import Mathlib

/-!
Verification of the state-management core of the Book-store repository
(src/src/App.tsx): the reducer over the book collection, the search filter,
the pagination window, and the localStorage persistence hook.
-/

namespace BookStore

/-- A catalog entry, `interface Book` of src/src/App.tsx (lines 5-9):
three string fields `title`, `author`, `year`. -/
structure Book where
  title : String
  author : String
  year : String
deriving DecidableEq, Repr

/-- The dispatched actions of src/src/App.tsx (lines 11-14, 43-52).  The source
`Action` carries a `type` string restricted to the three known tags plus an
untyped payload; the three recognized shapes are the first three constructors
(payload types as the callers build them: `handleAddBook`, `handleDeleteBook`,
`handleEditBook`, lines 70-80), and `other` stands for an action object whose
`type` is any unrecognized tag, reaching the reducer's `default` branch. -/
inductive Action where
  | ADD_BOOK (payload : Book)
  | DELETE_BOOK (payload : Int)
  | EDIT_BOOK (index : Int) (book : Book)
  | other (type : String)
deriving DecidableEq, Repr

/-- JavaScript `Array.prototype.filter` with the two-argument callback
`(element, index) => ...`, where `index` is the zero-based position of the
element in the original array; `n` is the index of the head of the remaining
list.  Used by the reducer's `DELETE_BOOK` case (src/src/App.tsx line 47). -/
def filterWithIndex (f : Book → Nat → Bool) : List Book → Nat → List Book
  | [], _ => []
  | b :: rest, n =>
    if f b n then b :: filterWithIndex f rest (n + 1)
    else filterWithIndex f rest (n + 1)

/-- JavaScript `Array.prototype.map` with the two-argument callback
`(element, index) => ...`.  Used by the reducer's `EDIT_BOOK` case
(src/src/App.tsx line 49). -/
def mapWithIndex (f : Book → Nat → Book) : List Book → Nat → List Book
  | [], _ => []
  | b :: rest, n => f b n :: mapWithIndex f rest (n + 1)

/-- The reducer of src/src/App.tsx (lines 42-53):
`ADD_BOOK` appends (`[...state, action.payload]`),
`DELETE_BOOK` keeps elements whose index differs from the payload
(`state.filter((_, index) => index !== action.payload)`),
`EDIT_BOOK` replaces the element at `payload.index`
(`state.map((book, index) => index === action.payload.index ? action.payload.book : book)`),
and the `default` branch returns the state unchanged.  Indices are compared as
numbers, so the payload position is modelled as an `Int` (a negative position
matches no index). -/
def reducer (state : List Book) (action : Action) : List Book :=
  match action with
  | .ADD_BOOK payload => state ++ [payload]
  | .DELETE_BOOK payload =>
    filterWithIndex (fun _ index => decide ((index : Int) ≠ payload)) state 0
  | .EDIT_BOOK index book =>
    mapWithIndex (fun b i => if (i : Int) = index then book else b) state 0
  | .other _ => state

/-- Sample record used in concrete instances (the spec scenario's first book). -/
def duneBook : Book := ⟨"Dune", "Herbert", "1965"⟩

/-- Sample record used in concrete instances (the spec scenario's second book). -/
def foundationBook : Book := ⟨"Foundation", "Asimov", "1951"⟩

lemma filterWithIndex_cons (f : Book → Nat → Bool) (b : Book) (rest : List Book) (n : Nat) :
    filterWithIndex f (b :: rest) n
      = if f b n then b :: filterWithIndex f rest (n + 1)
        else filterWithIndex f rest (n + 1) := rfl

lemma mapWithIndex_cons (f : Book → Nat → Book) (b : Book) (rest : List Book) (n : Nat) :
    mapWithIndex f (b :: rest) n = f b n :: mapWithIndex f rest (n + 1) := rfl

lemma filterWithIndex_ne_eq_self (p : Int) :
    ∀ (l : List Book) (n : Nat), (p < n ∨ (n : Int) + l.length ≤ p) →
      filterWithIndex (fun _ index => decide ((index : Int) ≠ p)) l n = l := by
  intro l
  induction l with
  | nil => intro n _; rfl
  | cons b rest ih =>
    intro n h
    have hne : (n : Int) ≠ p := by
      simp only [List.length_cons] at h
      push_cast at h
      omega
    have hrec : p < (n + 1 : Nat) ∨ ((n + 1 : Nat) : Int) + rest.length ≤ p := by
      simp only [List.length_cons] at h
      push_cast at h ⊢
      omega
    rw [filterWithIndex_cons, if_pos (decide_eq_true hne), ih (n + 1) hrec]

lemma filterWithIndex_ne_eq_eraseIdx (p : Int) :
    ∀ (l : List Book) (n : Nat), (n : Int) ≤ p → p < (n : Int) + l.length →
      filterWithIndex (fun _ index => decide ((index : Int) ≠ p)) l n
        = l.eraseIdx (p.toNat - n) := by
  intro l
  induction l with
  | nil => intro n _ h2; simp at h2; omega
  | cons b rest ih =>
    intro n h1 h2
    by_cases he : (n : Int) = p
    · have h0 : p.toNat - n = 0 := by omega
      have hrest : filterWithIndex (fun _ index => decide ((index : Int) ≠ p)) rest (n + 1)
          = rest := by
        apply filterWithIndex_ne_eq_self
        left
        push_cast
        omega
      have hcond : decide ((n : Int) ≠ p) = false := by
        simp [he]
      rw [filterWithIndex_cons, hcond, if_neg (by simp), hrest, h0, List.eraseIdx_zero,
        List.tail_cons]
    · have hrec := ih (n + 1) (by push_cast; omega)
        (by simp only [List.length_cons] at h2; push_cast at h2 ⊢; omega)
      have hk : p.toNat - n = (p.toNat - (n + 1)) + 1 := by omega
      rw [filterWithIndex_cons, if_pos (decide_eq_true he), hrec, hk,
        List.eraseIdx_cons_succ]

lemma mapWithIndex_eq_eq_self (p : Int) (r : Book) :
    ∀ (l : List Book) (n : Nat), (p < n ∨ (n : Int) + l.length ≤ p) →
      mapWithIndex (fun b i => if (i : Int) = p then r else b) l n = l := by
  intro l
  induction l with
  | nil => intro n _; rfl
  | cons b rest ih =>
    intro n h
    have hne : ¬ ((n : Int) = p) := by
      simp only [List.length_cons] at h
      push_cast at h
      omega
    have hrec : p < (n + 1 : Nat) ∨ ((n + 1 : Nat) : Int) + rest.length ≤ p := by
      simp only [List.length_cons] at h
      push_cast at h ⊢
      omega
    rw [mapWithIndex_cons, if_neg hne, ih (n + 1) hrec]

lemma mapWithIndex_eq_eq_set (p : Int) (r : Book) :
    ∀ (l : List Book) (n : Nat), (n : Int) ≤ p → p < (n : Int) + l.length →
      mapWithIndex (fun b i => if (i : Int) = p then r else b) l n
        = l.set (p.toNat - n) r := by
  intro l
  induction l with
  | nil => intro n _ h2; simp at h2; omega
  | cons b rest ih =>
    intro n h1 h2
    by_cases he : (n : Int) = p
    · have h0 : p.toNat - n = 0 := by omega
      have hrest : mapWithIndex (fun b i => if (i : Int) = p then r else b) rest (n + 1)
          = rest := by
        apply mapWithIndex_eq_eq_self
        left
        push_cast
        omega
      rw [mapWithIndex_cons, if_pos he, hrest, h0, List.set_cons_zero]
    · have hrec := ih (n + 1) (by push_cast; omega)
        (by simp only [List.length_cons] at h2; push_cast at h2 ⊢; omega)
      have hk : p.toNat - n = (p.toNat - (n + 1)) + 1 := by omega
      rw [mapWithIndex_cons, if_neg he, hrec, hk, List.set_cons_succ]

/-- C1: for a position `p` outside `[0, len C)`, both `DELETE_BOOK p` and
`EDIT_BOOK p r` leave the collection unchanged; for `p` inside bounds,
`DELETE_BOOK p` yields a collection of length `len C - 1` equal to `C` with the
element at `p` removed (the remaining elements keeping their relative order),
and `EDIT_BOOK p r` yields `C` with exactly the element at `p` replaced by `r`
and every other element unchanged. -/
theorem delete_edit_bounds_effect (C : List Book) (p : Int) (r : Book) :
    ((p < 0 ∨ (C.length : Int) ≤ p) →
      reducer C (.DELETE_BOOK p) = C ∧ reducer C (.EDIT_BOOK p r) = C) ∧
    (0 ≤ p → p < (C.length : Int) →
      (reducer C (.DELETE_BOOK p)).length = C.length - 1 ∧
      reducer C (.DELETE_BOOK p) = C.take p.toNat ++ C.drop (p.toNat + 1) ∧
      reducer C (.EDIT_BOOK p r) = C.take p.toNat ++ r :: C.drop (p.toNat + 1)) := by
  constructor
  · intro h
    constructor
    · exact filterWithIndex_ne_eq_self p C 0 (by push_cast; omega)
    · exact mapWithIndex_eq_eq_self p r C 0 (by push_cast; omega)
  · intro h0 hlt
    have hnat : p.toNat < C.length := by omega
    have hdel : reducer C (.DELETE_BOOK p) = C.eraseIdx p.toNat := by
      have := filterWithIndex_ne_eq_eraseIdx p C 0 (by push_cast; omega)
        (by push_cast; omega)
      simpa [reducer] using this
    have hedit : reducer C (.EDIT_BOOK p r) = C.set p.toNat r := by
      have := mapWithIndex_eq_eq_set p r C 0 (by push_cast; omega)
        (by push_cast; omega)
      simpa [reducer] using this
    refine ⟨?_, ?_, ?_⟩
    · rw [hdel, List.length_eraseIdx, if_pos hnat]
    · rw [hdel, List.eraseIdx_eq_take_drop_succ]
    · rw [hedit, List.set_eq_take_append_cons_drop, if_pos hnat]

/-- Closed instance of `delete_edit_bounds_effect`: deleting position 1 of a
two-element collection removes its second element, and position 2 is out of
bounds so deleting there is a no-op. -/
theorem delete_edit_bounds_effect_witness :
    ((0 : Int) ≤ 1 ∧ (1 : Int) < (([duneBook, foundationBook] : List Book).length : Int) ∧
      reducer [duneBook, foundationBook] (.DELETE_BOOK 1) = [duneBook]) ∧
    (((2 : Int) < 0 ∨ (([duneBook, foundationBook] : List Book).length : Int) ≤ 2) ∧
      reducer [duneBook, foundationBook] (.DELETE_BOOK 2) = [duneBook, foundationBook]) := by
  constructor
  · refine ⟨by decide, by decide, ?_⟩
    have h := (delete_edit_bounds_effect [duneBook, foundationBook] 1 duneBook).2
      (by decide) (by decide)
    exact h.2.1.trans (by decide)
  · refine ⟨Or.inr (by decide), ?_⟩
    have h := (delete_edit_bounds_effect [duneBook, foundationBook] 2 duneBook).1
      (Or.inr (by decide))
    exact h.1

/-- C2: `ADD_BOOK r` appends `r` at the end: the result is `C ++ [r]`, its
length is `len C + 1`, its last element is `r`, its first `len C` elements are
`C` in order, and the operation always succeeds (it is a total function). -/
theorem add_appends (C : List Book) (r : Book) :
    reducer C (.ADD_BOOK r) = C ++ [r] ∧
    (reducer C (.ADD_BOOK r)).length = C.length + 1 ∧
    (reducer C (.ADD_BOOK r)).getLast? = some r ∧
    (reducer C (.ADD_BOOK r)).take C.length = C := by
  refine ⟨rfl, by simp [reducer], ?_, ?_⟩
  · show (C ++ [r]).getLast? = some r
    exact List.getLast?_concat C
  · show (C ++ [r]).take C.length = C
    exact List.take_left C [r]

/-- C3: the reducer is a total function: for every collection and every action,
including one whose `type` tag is unrecognized, it returns a collection (it is
a Lean function, so it terminates and never throws), and every unrecognized
action returns the input collection unchanged (the `default` branch). -/
theorem reducer_total_default (C : List Book) (A : Action) (t : String) :
    (∃ D : List Book, reducer C A = D) ∧ reducer C (.other t) = C :=
  ⟨⟨reducer C A, rfl⟩, rfl⟩

/-- JavaScript `String.prototype.toLowerCase`, applied character by character;
a string is represented by its character list. -/
def jsLower (s : String) : List Char := s.data.map Char.toLower

/-- JavaScript `String.prototype.includes`: `true` exactly when `pat` occurs as
a contiguous substring of `s` (the empty pattern occurs in every string). -/
def jsIncludes (s pat : List Char) : Bool := decide (pat <:+: s)

/-- The search filter of src/src/App.tsx (line 101):
`state.filter(book => book.title.toLowerCase().includes(searchTerm.toLowerCase()))`. -/
def filteredBooks (state : List Book) (searchTerm : String) : List Book :=
  state.filter (fun book => jsIncludes (jsLower book.title) (jsLower searchTerm))

/-- The page-size constant `booksPerPage = 5` of src/src/App.tsx (line 59). -/
def booksPerPage : Nat := 5

/-- `indexOfLastBook = currentPage * booksPerPage` (src/src/App.tsx line 102). -/
def indexOfLastBook (currentPage : Nat) : Nat := currentPage * booksPerPage

/-- `indexOfFirstBook = indexOfLastBook - booksPerPage` (src/src/App.tsx
line 103); pages are numbered from 1. -/
def indexOfFirstBook (currentPage : Nat) : Nat := indexOfLastBook currentPage - booksPerPage

/-- The visible page `currentBooks = filteredBooks.slice(indexOfFirstBook,
indexOfLastBook)` (src/src/App.tsx line 104): JavaScript `slice(start, end)`
returns the elements at positions `[start, end)`, an empty array when the
window lies beyond the array. -/
def currentBooks (filtered : List Book) (currentPage : Nat) : List Book :=
  (filtered.take (indexOfLastBook currentPage)).drop (indexOfFirstBook currentPage)

/-- The page count `Math.ceil(filteredBooks.length / booksPerPage)` rendered by
the pagination bar (src/src/App.tsx line 163); for naturals,
`ceil (a / b) = (a + (b - 1)) / b`. -/
def totalPages (filtered : List Book) : Nat :=
  (filtered.length + (booksPerPage - 1)) / booksPerPage

/-- C4: the filtered sequence is exactly the records of `C` whose lower-cased
title contains the lower-cased search term as a substring; it is a sublist of
`C` (so the surviving records keep their original order), and the empty search
term keeps all of `C`. -/
theorem filter_correct (C : List Book) (t : String) :
    List.Sublist (filteredBooks C t) C ∧
    (∀ r : Book, r ∈ filteredBooks C t ↔ r ∈ C ∧ jsLower t <:+: jsLower r.title) ∧
    filteredBooks C "" = C := by
  refine ⟨List.filter_sublist C, ?_, ?_⟩
  · intro r
    rw [filteredBooks, List.mem_filter]
    simp [jsIncludes]
  · rw [filteredBooks]
    apply List.filter_eq_self.mpr
    intro a _
    apply decide_eq_true
    show jsLower "" <:+: jsLower a.title
    have : jsLower "" = [] := rfl
    rw [this]
    exact List.nil_infix

/-- A twelve-record collection used to instantiate the pagination boundary. -/
def twelveBooks : List Book := List.replicate 12 duneBook

/-- C5: for any page number `p ≥ 1`, the visible page is the window
`[(p-1)*pageSize, p*pageSize)` of the filtered sequence, a window past the end
yields the empty list (not an error), `totalPages` is the ceiling of
`filteredCount / pageSize` (0 when the filtered set is empty), and with 12
filtered records: `totalPages = 3`, page 1 shows 5 records, page 3 shows 2,
page 4 shows none. -/
theorem pagination_window (filtered : List Book) (p : Nat) (hp : 1 ≤ p) :
    currentBooks filtered p = (filtered.drop ((p - 1) * booksPerPage)).take booksPerPage ∧
    (filtered.length ≤ (p - 1) * booksPerPage → currentBooks filtered p = []) ∧
    filtered.length ≤ totalPages filtered * booksPerPage ∧
    totalPages filtered * booksPerPage < filtered.length + booksPerPage ∧
    (filtered.length = 0 → totalPages filtered = 0) ∧
    (filtered.length = 12 →
      totalPages filtered = 3 ∧
      (currentBooks filtered 1).length = 5 ∧
      (currentBooks filtered 3).length = 2 ∧
      currentBooks filtered 4 = []) := by
  have ewin : currentBooks filtered p
      = (filtered.drop ((p - 1) * booksPerPage)).take booksPerPage := by
    have e1 : indexOfLastBook p - indexOfFirstBook p = booksPerPage := by
      simp only [indexOfLastBook, indexOfFirstBook, booksPerPage]
      omega
    have e2 : indexOfFirstBook p = (p - 1) * booksPerPage := by
      simp only [indexOfLastBook, indexOfFirstBook, booksPerPage]
      omega
    rw [currentBooks, List.drop_take, e1, e2]
  refine ⟨ewin, ?_, ?_, ?_, ?_, ?_⟩
  · intro hbeyond
    rw [ewin, List.drop_eq_nil_of_le hbeyond, List.take_nil]
  · simp only [totalPages, booksPerPage]
    omega
  · simp only [totalPages, booksPerPage]
    omega
  · intro h0
    simp only [totalPages, booksPerPage, h0]
  · intro h12
    refine ⟨?_, ?_, ?_, ?_⟩
    · simp only [totalPages, booksPerPage, h12]
    · simp only [currentBooks, indexOfLastBook, indexOfFirstBook, booksPerPage,
        List.length_drop, List.length_take, h12]
      omega
    · simp only [currentBooks, indexOfLastBook, indexOfFirstBook, booksPerPage,
        List.length_drop, List.length_take, h12]
      omega
    · apply List.drop_eq_nil_of_le
      simp only [List.length_take, h12, indexOfLastBook, indexOfFirstBook, booksPerPage]
      omega

/-- Closed instance of `pagination_window`: twelve filtered records, page 4 is
past the last page and shows the empty sequence. -/
theorem pagination_window_witness :
    1 ≤ 4 ∧ twelveBooks.length = 12 ∧ currentBooks twelveBooks 4 = [] := by
  refine ⟨by decide, by decide, ?_⟩
  have h := (pagination_window twelveBooks 4 (by decide)).2.2.2.2.2 (by decide)
  exact h.2.2.2

/-- Modelled from the spec: the space of JSON values, the codomain of the
host's `JSON.parse` and the domain of its `JSON.stringify` used by
`useLocalStorage` (src/src/App.tsx lines 21 and 32).  The host serialization
functions are not part of the repository, so stored strings are classified by
the JSON value they parse to. -/
inductive Json where
  | null
  | bool (b : Bool)
  | num (n : Int)
  | str (s : String)
  | arr (elements : List Json)
  | obj (fields : List (String × Json))

/-- The JSON object a `Book` stringifies to: `{title, author, year}` with the
three string fields in declaration order (src/src/App.tsx lines 5-9; spec
durable format). -/
def encodeBook (b : Book) : Json :=
  .obj [("title", .str b.title), ("author", .str b.author), ("year", .str b.year)]

/-- The JSON value a collection stringifies to: the array of its records'
objects in insertion order. -/
def encodeBooks (C : List Book) : Json := .arr (C.map encodeBook)

/-- Modelled from the spec: decoding one record of the durable format
(`{title: string, author: string, year: string}`); any other shape is not a
`BookRecord`. -/
def decodeBook : Json → Option Book
  | .obj [("title", .str t), ("author", .str a), ("year", .str y)] => some ⟨t, a, y⟩
  | _ => none

/-- Modelled from the spec: decoding a list of JSON values as records, failing
when any element fails. -/
def decodeBookList : List Json → Option (List Book)
  | [] => some []
  | j :: rest =>
    match decodeBook j, decodeBookList rest with
    | some b, some bs => some (b :: bs)
    | _, _ => none

/-- Modelled from the spec: decoding a JSON value as a sequence of
`BookRecord` (the durable format is a JSON array of record objects). -/
def decodeBooks : Json → Option (List Book)
  | .arr es => decodeBookList es
  | _ => none

/-- Modelled from the spec: the observable states of the localStorage slot for
one key.  `absent`: `getItem` returns `null`; `emptyStr`: `getItem` returns
the empty string (falsy, so src/src/App.tsx line 21 short-circuits before
parsing); `unparsable`: a non-empty stored string on which `JSON.parse`
throws; `parsed j`: a non-empty stored string that `JSON.parse` reads as the
value `j`. -/
inductive StoredCell where
  | absent
  | emptyStr
  | unparsable
  | parsed (j : Json)

/-- The `useState` initializer of `useLocalStorage` (src/src/App.tsx lines
19-26): `item ? JSON.parse(item) : initialValue` inside `try`, with `catch`
logging the error and returning `initialValue`.  The result pairs the loaded
value with whether `console.error` was called. -/
def loadStored (item : StoredCell) (initialValue : Json) : Json × Bool :=
  match item with
  | .absent => (initialValue, false)
  | .emptyStr => (initialValue, false)
  | .unparsable => (initialValue, true)
  | .parsed j => (j, false)

/-- Modelled from the spec: a successful `setValue` write (src/src/App.tsx
lines 28-35) stores `JSON.stringify(valueToStore)` under the key; the host
guarantees that `JSON.parse` reads that string back as the same JSON value, so
the resulting cell parses to the saved value. -/
def saveStored (v : Json) : StoredCell := .parsed v

lemma decodeBookList_map_encodeBook (C : List Book) :
    decodeBookList (C.map encodeBook) = some C := by
  induction C with
  | nil => rfl
  | cons b rest ih =>
    simp only [List.map_cons, decodeBookList]
    rw [show decodeBook (encodeBook b) = some b from rfl, ih]

/-- C6: persistence round-trip: saving a collection stores the JSON array of
its `{title, author, year}` objects in insertion order, loading it back
returns that value (with no error logged), and decoding it as records
reproduces the collection exactly, order and field values preserved. -/
theorem persistence_round_trip (C : List Book) (init : Json) :
    loadStored (saveStored (encodeBooks C)) init = (encodeBooks C, false) ∧
    decodeBooks (encodeBooks C) = some C := by
  refine ⟨rfl, ?_⟩
  rw [encodeBooks, decodeBooks, decodeBookList_map_encodeBook]

/-- C7 counterexample: when the key is absent the code returns the initial
empty collection but logs nothing (`item ?` short-circuits, `console.error` is
never reached), contradicting the claim that the failure is logged in the
absence case. -/
theorem load_absent_not_logged :
    (loadStored .absent (encodeBooks [])).1 = encodeBooks [] ∧
    (loadStored .absent (encodeBooks [])).2 = false :=
  ⟨rfl, rfl⟩

/-- C7 (amended): a stored value that parses to an encoded collection loads
back as that collection; an absent key or empty stored string yields the empty
collection silently; a stored string on which `JSON.parse` throws yields the
empty collection and logs the error; the load never raises: it is a total
function returning a value on every cell state. -/
theorem load_error_policy (C : List Book) (cell : StoredCell) (init : Json) :
    decodeBooks ((loadStored (.parsed (encodeBooks C)) (encodeBooks [])).1) = some C ∧
    loadStored .absent (encodeBooks []) = (encodeBooks [], false) ∧
    loadStored .emptyStr (encodeBooks []) = (encodeBooks [], false) ∧
    loadStored .unparsable (encodeBooks []) = (encodeBooks [], true) ∧
    ∃ out : Json × Bool, loadStored cell init = out := by
  refine ⟨?_, rfl, rfl, rfl, ⟨loadStored cell init, rfl⟩⟩
  show decodeBooks (encodeBooks C) = some C
  rw [encodeBooks, decodeBooks, decodeBookList_map_encodeBook]

/-- C10: the load performs no shape validation beyond JSON parsing: any stored
string that parses to some JSON value `j` is returned as the initial state
unchanged — even `42`, which is no array of records — and the initial (empty)
collection is substituted only when the key is absent, the stored string is
empty, or parsing throws. -/
theorem load_no_shape_validation (j init : Json) :
    (loadStored (.parsed j) init).1 = j ∧
    (loadStored .absent init).1 = init ∧
    (loadStored .emptyStr init).1 = init ∧
    (loadStored .unparsable init).1 = init ∧
    decodeBooks (Json.num 42) = none ∧
    (loadStored (.parsed (Json.num 42)) (encodeBooks [])).1 = Json.num 42 ∧
    Json.num 42 ≠ encodeBooks [] := by
  refine ⟨rfl, rfl, rfl, rfl, rfl, rfl, ?_⟩
  intro h
  exact Json.noConfusion h

/-- Whether the reducer case for an action constructs a new array object
(JavaScript reference inequality, which is what React's `Object.is` bailout
and the `[state]` dependency of the `useEffect` compare): `ADD_BOOK` spreads
into a fresh array and `DELETE_BOOK` / `EDIT_BOOK` call `filter` / `map`,
which always allocate, while the `default` branch returns the incoming state
reference (src/src/App.tsx lines 43-52). -/
def producesNewArray : Action → Bool
  | .other _ => false
  | _ => true

/-- The user interactions the rendered shell can deliver to the core:
dispatching a reducer action (`handleAddBook` / `handleDeleteBook` /
`handleEditBook`, src/src/App.tsx lines 70-80), typing a search term
(`handleSearch`, lines 82-84), and choosing a page (`paginate`, line 106). -/
inductive UserEvent where
  | dispatch (a : Action)
  | setSearch (t : String)
  | setPage (p : Nat)
deriving DecidableEq

/-- The observable events of one process run: a user event being processed, a
user-visible committed render (labelled with the collection it renders), and a
`Save` — one `localStorage.setItem` call of the full current collection
(src/src/App.tsx line 32). -/
inductive Event where
  | act (e : UserEvent)
  | render (s : List Book)
  | save (s : List Book)
deriving DecidableEq

/-- The component state the loop tracks: the reducer state `books`
(src/src/App.tsx line 57), whether the hook's `storedValue` (line 18) still
references the same array object as `books` (`synced`), and the two UI fields
`term` (line 59, initially `""`) and `page` (line 58, initially 1). -/
structure LoopState where
  books : List Book
  synced : Bool
  term : String
  page : Nat

/-- Modelled from the spec: what follows one committed render.  React (host
code, not in src/) runs the effect of src/src/App.tsx lines 66-68 after every
committed render, because its dependency list `[state, setStoredBooks]`
(line 68) contains the `setValue` closure of `useLocalStorage`, which is
recreated on every render.  The run calls `setStoredBooks(state)` (line 67),
i.e. `setValue` (lines 28-35): `setStoredValue(valueToStore)` and then
`localStorage.setItem(key, JSON.stringify(valueToStore))` — one save of the
full current collection.  When `storedValue` still references the same array
as `state`, the `setStoredValue` call is an `Object.is` bailout and the cycle
ends after that single save; when it does not (a fresh reducer array), the
call commits one more render — the persistence echo — whose own effect run
saves once more and then reaches the bailout. -/
def effectCycle (s : LoopState) : List Event × LoopState :=
  if s.synced then
    ([.save s.books], s)
  else
    ([.save s.books, .render s.books, .save s.books], { s with synced := true })

/-- Modelled from the spec: processing one user event to quiescence in the
single-threaded cooperative loop of spec §5.  A dispatched action runs the
reducer; when its case built a new array object (`producesNewArray`) React
commits a render of the new collection and the effect cycle follows; when the
reducer returned the incoming reference (the `default` branch) React bails
out: no render, no effect, no save.  A search-term or page change whose value
differs from the current one commits a render of the unchanged collection
followed by the effect cycle; setting the value already in place is an
`Object.is` bailout. -/
def stepEvent (s : LoopState) (e : UserEvent) : List Event × LoopState :=
  match e with
  | .dispatch a =>
    if producesNewArray a then
      ((Event.act e :: Event.render (reducer s.books a) ::
          (effectCycle { s with books := reducer s.books a, synced := false }).1),
        (effectCycle { s with books := reducer s.books a, synced := false }).2)
    else
      ([Event.act e], { s with books := reducer s.books a })
  | .setSearch t =>
    if t = s.term then ([Event.act e], s)
    else
      ((Event.act e :: Event.render s.books :: (effectCycle { s with term := t }).1),
        (effectCycle { s with term := t }).2)
  | .setPage p =>
    if p = s.page then ([Event.act e], s)
    else
      ((Event.act e :: Event.render s.books :: (effectCycle { s with page := p }).1),
        (effectCycle { s with page := p }).2)

/-- The trace of a sequence of user events, each processed to quiescence
before the next one is delivered. -/
def processEvents (s : LoopState) : List UserEvent → List Event
  | [] => []
  | e :: rest => (stepEvent s e).1 ++ processEvents (stepEvent s e).2 rest

/-- Modelled from the spec: a full run from mount.  `useReducer(reducer,
storedBooks)` (src/src/App.tsx line 57) starts the reducer state on the very
array object held by `storedValue`, so the process mounts synced: the mount
render is followed by a single save of the loaded collection; then the user
events are processed. -/
def runApp (init : List Book) (events : List UserEvent) : List Event :=
  Event.render init :: Event.save init ::
    processEvents { books := init, synced := true, term := "", page := 1 } events

/-- The collections carried by the save events of a trace, in order. -/
def savedCollections (t : List Event) : List (List Book) :=
  t.filterMap fun e => match e with | .save s => some s | _ => none

/-- The collections carried by the committed renders of a trace, in order. -/
def renderedCollections (t : List Event) : List (List Book) :=
  t.filterMap fun e => match e with | .render s => some s | _ => none

def isActOrSave : Event → Bool
  | .act _ => true
  | .save _ => true
  | .render _ => false

def isRenderOrSave : Event → Bool
  | .render _ => true
  | .save _ => true
  | .act _ => false

/-- The render/save alternation: every render is immediately followed, in the
projection to renders and saves, by exactly one save of the collection it
rendered. -/
def pairedTrace : List (List Book) → List Event
  | [] => []
  | s :: rest => .render s :: .save s :: pairedTrace rest

/-- The expected order of user events and saves, given the current collection
and UI fields: an accepted dispatch is followed by two saves of the new
collection (the effect run and its persistence echo), an accepted search-term
or page change by one save of the unchanged collection, a bailed-out event by
none — in every case strictly before the next user event. -/
def actSaveSpec (books : List Book) (term : String) (page : Nat) :
    List UserEvent → List Event
  | [] => []
  | .dispatch a :: rest =>
    if producesNewArray a then
      .act (.dispatch a) :: .save (reducer books a) :: .save (reducer books a) ::
        actSaveSpec (reducer books a) term page rest
    else
      .act (.dispatch a) :: actSaveSpec (reducer books a) term page rest
  | .setSearch t :: rest =>
    if t = term then .act (.setSearch t) :: actSaveSpec books term page rest
    else .act (.setSearch t) :: .save books :: actSaveSpec books t page rest
  | .setPage p :: rest =>
    if p = page then .act (.setPage p) :: actSaveSpec books term page rest
    else .act (.setPage p) :: .save books :: actSaveSpec books term p rest

/-- The collections produced by accepted state changes: one entry per
dispatched action whose reducer case built a new array. -/
def acceptedChanges (books : List Book) : List UserEvent → List (List Book)
  | [] => []
  | .dispatch a :: rest =>
    if producesNewArray a then
      reducer books a :: acceptedChanges (reducer books a) rest
    else acceptedChanges (reducer books a) rest
  | .setSearch _ :: rest => acceptedChanges books rest
  | .setPage _ :: rest => acceptedChanges books rest

lemma pairedTrace_append (L₁ L₂ : List (List Book)) :
    pairedTrace (L₁ ++ L₂) = pairedTrace L₁ ++ pairedTrace L₂ := by
  induction L₁ with
  | nil => rfl
  | cons s rest ih => simp [pairedTrace, ih]

/-- C8 counterexample: starting from the empty collection, the single action
`ADD_BOOK duneBook` — exactly one accepted state change — produces a trace
with three Save calls, not one: the mount effect saves the empty collection
before any action, and the accepted change is saved twice (the effect run
after its render and the persistence-echo run); moreover the explicit trace
shows each save of the new collection issued only after the render of that
collection, not before it. -/
theorem save_sync_counterexample :
    runApp [] [UserEvent.dispatch (.ADD_BOOK duneBook)] =
      [Event.render [], Event.save [],
        Event.act (.dispatch (.ADD_BOOK duneBook)),
        Event.render [duneBook], Event.save [duneBook],
        Event.render [duneBook], Event.save [duneBook]] ∧
    acceptedChanges [] [UserEvent.dispatch (.ADD_BOOK duneBook)] = [[duneBook]] ∧
    (savedCollections (runApp [] [UserEvent.dispatch (.ADD_BOOK duneBook)])).length = 3 ∧
    (savedCollections (runApp [] [UserEvent.dispatch (.ADD_BOOK duneBook)])).length ≠
      (acceptedChanges [] [UserEvent.dispatch (.ADD_BOOK duneBook)]).length := by
  refine ⟨rfl, rfl, rfl, by decide⟩

lemma processEvents_actSave (events : List UserEvent) :
    ∀ (books : List Book) (term : String) (page : Nat),
      (processEvents ⟨books, true, term, page⟩ events).filter isActOrSave
        = actSaveSpec books term page events := by
  induction events with
  | nil => intro books term page; rfl
  | cons e rest ih =>
    intro books term page
    cases e with
    | dispatch a =>
      by_cases h : producesNewArray a
      · simp [processEvents, stepEvent, effectCycle, h, actSaveSpec,
          List.filter_append, isActOrSave, ih]
      · simp [processEvents, stepEvent, effectCycle, h, actSaveSpec,
          List.filter_append, isActOrSave, ih]
    | setSearch t =>
      by_cases h : t = term
      · simp [processEvents, stepEvent, effectCycle, h, actSaveSpec,
          List.filter_append, isActOrSave, ih]
      · simp [processEvents, stepEvent, effectCycle, h, actSaveSpec,
          List.filter_append, isActOrSave, ih]
    | setPage p =>
      by_cases h : p = page
      · simp [processEvents, stepEvent, effectCycle, h, actSaveSpec,
          List.filter_append, isActOrSave, ih]
      · simp [processEvents, stepEvent, effectCycle, h, actSaveSpec,
          List.filter_append, isActOrSave, ih]

lemma processEvents_renderSave (events : List UserEvent) :
    ∀ (books : List Book) (term : String) (page : Nat),
      (processEvents ⟨books, true, term, page⟩ events).filter isRenderOrSave
        = pairedTrace
            (renderedCollections (processEvents ⟨books, true, term, page⟩ events)) := by
  induction events with
  | nil => intro books term page; rfl
  | cons e rest ih =>
    intro books term page
    cases e with
    | dispatch a =>
      by_cases h : producesNewArray a
      · simp [processEvents, stepEvent, effectCycle, h, renderedCollections,
          List.filter_append, List.filterMap_append, isRenderOrSave, pairedTrace,
          pairedTrace_append, ih]
      · simp [processEvents, stepEvent, effectCycle, h, renderedCollections,
          List.filter_append, List.filterMap_append, isRenderOrSave, pairedTrace,
          pairedTrace_append, ih]
    | setSearch t =>
      by_cases h : t = term
      · simp [processEvents, stepEvent, effectCycle, h, renderedCollections,
          List.filter_append, List.filterMap_append, isRenderOrSave, pairedTrace,
          pairedTrace_append, ih]
      · simp [processEvents, stepEvent, effectCycle, h, renderedCollections,
          List.filter_append, List.filterMap_append, isRenderOrSave, pairedTrace,
          pairedTrace_append, ih]
    | setPage p =>
      by_cases h : p = page
      · simp [processEvents, stepEvent, effectCycle, h, renderedCollections,
          List.filter_append, List.filterMap_append, isRenderOrSave, pairedTrace,
          pairedTrace_append, ih]
      · simp [processEvents, stepEvent, effectCycle, h, renderedCollections,
          List.filter_append, List.filterMap_append, isRenderOrSave, pairedTrace,
          pairedTrace_append, ih]

lemma savedCollections_pairedTrace (L : List (List Book)) :
    savedCollections (pairedTrace L) = L := by
  induction L with
  | nil => rfl
  | cons s rest ihL =>
    simp only [savedCollections] at ihL ⊢
    simp [pairedTrace, List.filterMap_cons, ihL]

lemma savedCollections_filter_renderSave (t : List Event) :
    savedCollections (t.filter isRenderOrSave) = savedCollections t := by
  induction t with
  | nil => rfl
  | cons ev rest ih =>
    cases ev with
    | act e =>
      simpa [savedCollections, isRenderOrSave, List.filter_cons, List.filterMap_cons]
        using ih
    | render s =>
      simpa [savedCollections, isRenderOrSave, List.filter_cons, List.filterMap_cons]
        using ih
    | save s =>
      simpa [savedCollections, isRenderOrSave, List.filter_cons, List.filterMap_cons]
        using ih

/-- C8 (amended): in every run from mount, each committed render — the mount
render, the render of an accepted state change, a search-term or page render,
and the persistence-echo render — is followed by exactly one Save carrying
precisely the collection that render showed, before the next render (the
render/save projection is the strict alternation `pairedTrace`), so the saved
collections equal the rendered collections in causal order; and the event/save
projection equals `actSaveSpec`: the mount save precedes every action, an
accepted state change is saved twice (effect run and persistence echo) with
its new full collection strictly after the action that produced it and
strictly before the next user event, an accepted UI change is saved once with
the unchanged collection, and a bailed-out event triggers no save. -/
theorem save_render_policy (init : List Book) (events : List UserEvent) :
    savedCollections (runApp init events) = renderedCollections (runApp init events) ∧
    (runApp init events).filter isRenderOrSave
      = pairedTrace (renderedCollections (runApp init events)) ∧
    (runApp init events).filter isActOrSave
      = Event.save init :: actSaveSpec init "" 1 events := by
  have hrs := processEvents_renderSave events init "" 1
  have has := processEvents_actSave events init "" 1
  refine ⟨?_, ?_, ?_⟩
  · have hP : savedCollections (processEvents ⟨init, true, "", 1⟩ events)
        = renderedCollections (processEvents ⟨init, true, "", 1⟩ events) := by
      rw [← savedCollections_filter_renderSave, hrs, savedCollections_pairedTrace]
    simp only [savedCollections, renderedCollections] at hP ⊢
    simp only [runApp, List.filterMap_cons]
    rw [hP]
  · simp only [runApp, List.filter_cons, isRenderOrSave, renderedCollections,
      List.filterMap_cons, pairedTrace]
    simp only [renderedCollections] at hrs
    simpa using hrs
  · simp only [runApp, List.filter_cons, isActOrSave]
    simpa using has

/-- The visible page of the table: the filtered collection cut to the current
page (src/src/App.tsx lines 101-104, rendered at lines 133-158). -/
def visibleBooks (C : List Book) (t : String) (p : Nat) : List Book :=
  currentBooks (filteredBooks C t) p

/-- The delete button of table row `i`: `currentBooks.map((book, index) =>
...)` numbers the rows from 0 within the visible page and the button calls
`handleDeleteBook(index)` (src/src/App.tsx lines 133-148), so the dispatched
action is `DELETE_BOOK` with the visible row index, applied to the full
collection. -/
def deleteFromRow (C : List Book) (i : Nat) : List Book :=
  reducer C (.DELETE_BOOK (i : Int))

/-- A sample record whose title does not contain "beta". -/
def alphaBook : Book := ⟨"Alpha", "A. Author", "1990"⟩

/-- A sample record whose title lower-cases to "beta". -/
def betaBook : Book := ⟨"Beta", "B. Author", "1991"⟩

/-- C9: a concrete collection, search term and page number on which the
visible row index diverges from the full-collection index: searching "beta"
in `[alphaBook, betaBook]` displays exactly `betaBook` at row 0, but row 0's
delete button dispatches `DELETE_BOOK 0`, which removes `alphaBook` — a record
different from the one displayed — while the displayed `betaBook` survives
(in the full collection `alphaBook` sits at index 0 and the displayed
`betaBook` at index 1). -/
theorem visible_index_divergence :
    visibleBooks [alphaBook, betaBook] "beta" 1 = [betaBook] ∧
    List.get? [alphaBook, betaBook] 0 = some alphaBook ∧
    List.get? [alphaBook, betaBook] 1 = some betaBook ∧
    deleteFromRow [alphaBook, betaBook] 0 = [betaBook] ∧
    betaBook ∈ deleteFromRow [alphaBook, betaBook] 0 ∧
    alphaBook ∉ deleteFromRow [alphaBook, betaBook] 0 ∧
    alphaBook ≠ betaBook := by
  decide

end BookStore
